import Mathlib

/-!
Shallow embedding of the roster model-construction and result-projection layer
of `src/logic.py` (classes `Solver` and `HospitalSolver`).

Each Python method that adds constraints to the CP-SAT model is embedded as a
`Bool`-valued satisfaction predicate over a valuation of the boolean decision
variables `vars[n][r][d][s]`: the predicate evaluates to `true` exactly when
the valuation satisfies every constraint that method adds (each `model.Add`
executed inside the method's loops becomes one conjunct).  Pure helper
computations (the identifier registry, the requirement reindexing, the
soft-leave penalty grid, the roster projections) are embedded as Lean
functions following the source loops; Python dicts become association lists,
NumPy arrays become functions over `Nat` indices, and the mutating loops
become folds.  The external CP-SAT engine is out of scope and is abstracted
as an oracle status where it appears.
-/

set_option maxHeartbeats 1000000

namespace CSP

/-- A valuation of the decision variables: `v n r d s` is the solved boolean
value of `vars[n][r][d][s]` (resource, role, day, shift). -/
abbrev VarValuation := Nat → Nat → Nat → Nat → Bool

/-- Indicator of a boolean decision variable, as it appears in the integer
sums of the model's linear constraints. -/
def b2n (b : Bool) : Nat := if b then 1 else 0

/-- Total lookup in an association list (a Python dict read `d[k]` whose key is
known to be present; `default` is never reached on the source's inputs). -/
def lookupD {α β : Type} [DecidableEq α] (l : List (α × β)) (k : α) (default : β) : β :=
  ((l.find? fun p => decide (p.1 = k)).map Prod.snd).getD default

/-- A Python dict assignment `d[k] = v`: replaces the value at an existing key
in place, else appends the new binding. -/
def dictInsert {α β : Type} [DecidableEq α] (l : List (α × β)) (k : α) (v : β) :
    List (α × β) :=
  if l.any fun p => decide (p.1 = k) then
    l.map fun p => if p.1 = k then (k, v) else p
  else l ++ [(k, v)]

/-- The lookup tables built by `_createEmployeeRoleLookup`
(src/logic.py lines 84-157), with Python dicts as association lists. -/
structure Registry where
  resourcesLookup : List (Nat × String)
  resourceIdLookup : List (String × Nat)
  numResources : Nat
  rolesLookup : List (Nat × String)
  rolesIdLookup : List (String × Nat)
  numRoles : Nat
  resourceRoleMapping : List (Nat × List Nat)
deriving DecidableEq, Repr

/-- The resource-deduplication loop of `_createEmployeeRoleLookup`
(src/logic.py lines 132-135): append each element not seen before. -/
def dedupAppend (l : List String) : List String :=
  l.foldl (fun acc x => if x ∈ acc then acc else acc ++ [x]) []

/-- The role-collection loop of `_createEmployeeRoleLookup`
(src/logic.py lines 143-147): scan each resource's role list in order,
appending each role not seen before. -/
def collectRoles (roleLists : List (List String)) : List String :=
  roleLists.foldl
    (fun acc roleList =>
      roleList.foldl (fun acc2 role => if role ∈ acc2 then acc2 else acc2 ++ [role]) acc)
    []

/-- Embeds `_createEmployeeRoleLookup` (src/logic.py lines 84-157).  The input
dict (resource key to role-key list) is an association list in insertion
order; `enumerate` becomes `List.enum`. -/
def createEmployeeRoleLookup (arg : List (String × List String)) : Registry :=
  let resources := dedupAppend (arg.map Prod.fst)
  let roles := collectRoles (arg.map Prod.snd)
  let resourceIdLookup := resources.enum.map fun p => (p.2, p.1)
  let rolesIdLookup := roles.enum.map fun p => (p.2, p.1)
  { resourcesLookup := resources.enum
    resourceIdLookup := resourceIdLookup
    numResources := resources.length
    rolesLookup := roles.enum
    rolesIdLookup := rolesIdLookup
    numRoles := roles.length
    resourceRoleMapping :=
      arg.foldl
        (fun m p =>
          dictInsert m (lookupD resourceIdLookup p.1 0)
            (p.2.map fun role => lookupD rolesIdLookup role 0))
        [] }

/-- Modelled from the spec: the specification's description of index
assignment — "indices assigned in first-seen order … duplicate keys get a
single shared index (first occurrence wins)" — as a recursive function: keep
the first occurrence of each element, in order. -/
def firstSeenList : List String → List String
  | [] => []
  | x :: xs => x :: firstSeenList (xs.filter fun y => decide (y ≠ x))
termination_by l => l.length
decreasing_by
  simp only [List.length_cons]
  exact Nat.lt_succ_of_le (List.length_filter_le _ _)

/-- Embeds `_removeExtraRoles` (src/logic.py lines 159-174): for every
resource and every role absent from that resource's eligibility list, the
constraint `vars[resource][role][d][s] == 0` is added for all days and
shifts.  The predicate holds when the valuation satisfies all of them. -/
def removeExtraRolesSat (numResources numRoles numDays numShifts : Nat)
    (resourceRoleMapping : Nat → List Nat) (v : VarValuation) : Bool :=
  (List.range numResources).all fun resource =>
    (((List.range numRoles).filter fun role =>
        decide (role ∉ resourceRoleMapping resource)).all fun role =>
      (List.range numDays).all fun d =>
        (List.range numShifts).all fun s => v resource role d s == false)

/-- Embeds `_maxOneShiftPerDay` (src/logic.py lines 238-250): for every
resource and day, the sum of all its role/shift variables is at most 1. -/
def maxOneShiftPerDaySat (numResources numRoles numDays numShifts : Nat)
    (v : VarValuation) : Bool :=
  (List.range numResources).all fun n =>
    (List.range numDays).all fun d =>
      decide ((Finset.range numRoles).sum
        (fun r => (Finset.range numShifts).sum fun s => b2n (v n r d s)) ≤ 1)

/-- Embeds the matrix-construction loop of `_nextDayShift`
(src/logic.py lines 270-275).  The source reads `dependence[0]` for BOTH
`i_idx` and `j_idx`, so each declared pair marks the diagonal cell of its
origin shift; the second component of the pair is never consulted. -/
def non_sequential_shifts_indices (arg : List (Nat × Nat)) : Nat → Nat → Nat :=
  arg.foldl
    (fun m dependence =>
      let i_idx := dependence.1
      let j_idx := dependence.1
      fun i j => if i = i_idx ∧ j = j_idx then 1 else m i j)
    fun _ _ => 0

/-- Embeds the constraint loop of `_nextDayShift` (src/logic.py lines 277-283):
for every resource, day `d < numDays - 1` and shift `s`, the sum over next-day
shifts `j` and roles `r` of `vars[n][r][d][s] * M[s][j] + vars[n][r][d+1][j]`
is at most 1, where `M` is the matrix above. -/
def nextDayShiftSat (numResources numRoles numDays numShifts : Nat)
    (arg : List (Nat × Nat)) (v : VarValuation) : Bool :=
  (List.range numResources).all fun n =>
    (List.range (numDays - 1)).all fun d =>
      (List.range numShifts).all fun s =>
        decide ((Finset.range numShifts).sum
          (fun j => (Finset.range numRoles).sum fun r =>
            b2n (v n r d s) * non_sequential_shifts_indices arg s j
              + b2n (v n r (d + 1) j)) ≤ 1)

/-- The NumPy element write `self.non_sequential_shifts_indices[i_idx][j_idx] = 1`
of `_nextDayShift` (src/logic.py lines 272-275) with its bounds check made
explicit: writing outside the numShifts x numShifts shape raises IndexError,
modelled as `none`.  As in the source, both indices read `dependence[0]`. -/
def nonSequentialWriteChecked (numShifts : Nat) (m : Nat → Nat → Nat)
    (dependence : Nat × Nat) : Option (Nat → Nat → Nat) :=
  let i_idx := dependence.1
  let j_idx := dependence.1
  if i_idx < numShifts ∧ j_idx < numShifts then
    some fun i j => if i = i_idx ∧ j = j_idx then 1 else m i j
  else none

/-- The matrix-construction loop of `_nextDayShift` with checked indexing,
starting from the `np.zeros((numShifts, numShifts))` matrix. -/
def nonSequentialBuildChecked (numShifts : Nat) (arg : List (Nat × Nat)) :
    Option (Nat → Nat → Nat) :=
  arg.foldlM (nonSequentialWriteChecked numShifts) fun _ _ => 0

/-- Embeds `_dayAfterNight` (src/logic.py lines 439-443): it unconditionally
passes the pair list [(2, 0), (2, 1), (2, 2)] — each pair containing shift
index 2 — to `_nextDayShift`'s matrix construction. -/
def dayAfterNightMatrix (numShifts : Nat) : Option (Nat → Nat → Nat) :=
  nonSequentialBuildChecked numShifts [(2, 0), (2, 1), (2, 2)]

/-- A valuation that uses only the undeclared cross-day transition
(shift 2 on day 0, then shift 1 on day 1), exercising claim C1. -/
def vCexTransition : VarValuation := fun n r d s =>
  decide ((n = 0 ∧ r = 0) ∧ ((d = 0 ∧ s = 2) ∨ (d = 1 ∧ s = 1)))

/-- A valuation putting the only resource on shift 2 (night) on day 0 and
nowhere else; used to witness the amended claim C1. -/
def vTransNight : VarValuation := fun n r d s => decide (n = 0 ∧ r = 0 ∧ d = 0 ∧ s = 2)

/-- Embeds `_banShift` (src/logic.py lines 285-299): given a
(resource, day, shift) triple, the constraint `vars[resource][r][day][shift] == 0`
is added for every role `r`. -/
def banShiftSat (numRoles : Nat) (v : VarValuation) (arg : Nat × Nat × Nat) : Bool :=
  (List.range numRoles).all fun r => v arg.1 r arg.2.1 arg.2.2 == false

/-- Embeds `_hardLeave` (src/logic.py lines 445-451): for every
(resourceName, day) pair in the list, `_banShift` is applied once per shift
index, blocking the whole day. -/
def hardLeaveSat (numRoles numShifts : Nat) (resourceIdLookup : String → Nat)
    (v : VarValuation) (arg : List (String × Nat)) : Bool :=
  arg.all fun leave =>
    (List.range numShifts).all fun shift =>
      banShiftSat numRoles v (resourceIdLookup leave.1, leave.2, shift)

/-- Embeds `_createRequirementMapping` (src/logic.py lines 176-220): reindexes
the role-name-keyed requirement dicts (one per day and shift) into
role-id-keyed dicts through `rolesIdLookup`. -/
def createRequirementMapping (rolesIdLookup : String → Nat)
    (arg : List (List (List (String × Nat)))) : List (List (List (Nat × Nat))) :=
  arg.map fun day => day.map fun shift => shift.map fun p => (rolesIdLookup p.1, p.2)

/-- Embeds `_setRequirementConstraint` (src/logic.py lines 222-236): for every
day, shift, and role listed in the requirement dict for that day and shift,
the sum of that role's variables over all resources is at least the listed
requirement.  Roles not listed produce no constraint. -/
def setRequirementConstraintSat (numResources numDays numShifts : Nat)
    (requirementMapping : List (List (List (Nat × Nat)))) (v : VarValuation) : Bool :=
  (List.range numDays).all fun d =>
    (List.range numShifts).all fun s =>
      ((requirementMapping.getD d []).getD s []).all fun rr =>
        decide (rr.2 ≤ (Finset.range numResources).sum fun resource => b2n (v resource rr.1 d s))

/-- The scan of one day in `getRosterByResource` (src/logic.py lines 388-395):
iterate shifts ascending then roles ascending; every true variable overwrites
the day dict's Role and Shift values, so the last true pair in iteration
order wins, and the day entry exists only when some variable was true. -/
def rosterDayEntry (numRoles numShifts : Nat) (rolesLookup : Nat → String)
    (v : VarValuation) (resourceID d : Nat) : Option (String × Nat) :=
  (List.range numShifts).foldl
    (fun acc s =>
      (List.range numRoles).foldl
        (fun acc2 r => if v resourceID r d s then some (rolesLookup r, s) else acc2)
        acc)
    none

/-- The per-resource roster of `getRosterByResource` (src/logic.py
lines 385-396): the resource name plus, keyed by day index, the (Role, Shift)
entry of each day for which `resourceCalendar[f'Day_{d}'] = day` executed. -/
structure ResourceCalendar where
  resource : String
  days : List (Nat × (String × Nat))
deriving DecidableEq, Repr

/-- Embeds `getRosterByResource` (src/logic.py lines 385-396). -/
def getRosterByResource (numRoles numDays numShifts : Nat)
    (resourceIdLookup : String → Nat) (rolesLookup : Nat → String)
    (v : VarValuation) (resourceName : String) : ResourceCalendar :=
  { resource := resourceName
    days :=
      (List.range numDays).foldl
        (fun acc d =>
          match rosterDayEntry numRoles numShifts rolesLookup v
              (resourceIdLookup resourceName) d with
          | some entry => acc ++ [(d, entry)]
          | none => acc)
        [] }

/-- The resource scan of `getRosterByDay` (src/logic.py lines 410-413): the
names of the resources whose variable for this (role, day, shift) is true,
in resource-index order. -/
def assignedResources (numResources : Nat) (resourcesLookup : Nat → String)
    (v : VarValuation) (r day s : Nat) : List String :=
  (List.range numResources).foldl
    (fun acc n => if v n r day s then acc ++ [resourcesLookup n] else acc) []

/-- One role entry of `getRosterByDay`: the requirement read
`self.requirementMapping[day][s][r]` (a dict read modelled as an association
lookup; the source wraps it in a 1-tuple) and the assigned resource names. -/
structure RoleEntry where
  requirement : Option Nat
  resources : List String
deriving DecidableEq, Repr

/-- The role-scan loop of `getRosterByDay` (src/logic.py lines 408-415): a
role entry is appended only when its assigned-resource list is nonempty. -/
def shiftRolesList (numResources numRoles : Nat)
    (requirementMapping : List (List (List (Nat × Nat))))
    (resourcesLookup rolesLookup : Nat → String) (v : VarValuation)
    (day s : Nat) : List (String × RoleEntry) :=
  (List.range numRoles).foldl
    (fun roleAcc r =>
      if (assignedResources numResources resourcesLookup v r day s).length ≠ 0 then
        roleAcc ++ [(rolesLookup r,
          { requirement := (((requirementMapping.getD day []).getD s []).find?
              fun p => decide (p.1 = r)).map Prod.snd
            resources := assignedResources numResources resourcesLookup v r day s })]
      else roleAcc)
    []

/-- A shift entry of `getRosterByDay`: the shift index (the dict's pre-inserted
Shift key) and the role entries added to the shift dict. -/
structure ShiftEntry where
  shift : Nat
  roles : List (String × RoleEntry)
deriving DecidableEq, Repr

/-- The per-day roster of `getRosterByDay`: the day index plus the shift
entries, keyed by shift index. -/
structure DayCalendar where
  day : Nat
  shifts : List (Nat × ShiftEntry)
deriving DecidableEq, Repr

/-- Embeds `getRosterByDay` (src/logic.py lines 404-418).  The source's
emptiness guard is `len(shift) >= 1`, where the shift dict already holds the
pre-inserted Shift key besides the role entries: written here as
`1 + (role entries).length ≥ 1`, so it never skips a shift. -/
def getRosterByDay (numResources numRoles numShifts : Nat)
    (requirementMapping : List (List (List (Nat × Nat))))
    (resourcesLookup rolesLookup : Nat → String) (v : VarValuation) (day : Nat) :
    DayCalendar :=
  { day := day
    shifts :=
      (List.range numShifts).foldl
        (fun acc s =>
          if 1 + (shiftRolesList numResources numRoles requirementMapping
              resourcesLookup rolesLookup v day s).length ≥ 1 then
            acc ++ [(s, ⟨s, shiftRolesList numResources numRoles requirementMapping
              resourcesLookup rolesLookup v day s⟩)]
          else acc)
        [] }

/-- A valuation with exactly one true assignment (resource 0, role 0, day 0,
shift 0), used to witness the amended claim C9. -/
def vOneAssign : VarValuation := fun n r d s => decide (n = 0 ∧ r = 0 ∧ d = 0 ∧ s = 0)

/-- The zero penalty grid `np.zeros((numResources, numRoles, numDays, numShifts))`
of `_softLeave` (src/logic.py line 454). -/
def zeroPenaltyGrid : Nat → Nat → Nat → Nat → Rat := fun _ _ _ _ => 0

/-- One NumPy cell write `grid[n][r][d][s] = w` of `_softLeave`
(src/logic.py line 458). -/
def setPenaltyCell (g : Nat → Nat → Nat → Nat → Rat) (n r d s : Nat) (w : Rat) :
    Nat → Nat → Nat → Nat → Rat :=
  fun n2 r2 d2 s2 => if n2 = n ∧ r2 = r ∧ d2 = d ∧ s2 = s then w else g n2 r2 d2 s2

/-- The per-request write loops of `_softLeave` (src/logic.py lines 455-458):
for every shift and role, write the request's weight at
(resource id, role, request day, shift).  Weights are embedded as rationals. -/
def softLeaveRequestWrite (numShifts numRoles : Nat) (resourceIdLookup : String → Nat)
    (g : Nat → Nat → Nat → Nat → Rat) (request : String × Nat × Rat) :
    Nat → Nat → Nat → Nat → Rat :=
  (List.range numShifts).foldl
    (fun g1 s =>
      (List.range numRoles).foldl
        (fun g2 r =>
          setPenaltyCell g2 (resourceIdLookup request.1) r request.2.1 s request.2.2)
        g1)
    g

/-- The penalty grid `resourcesLeaveRequests` built by `_softLeave`
(src/logic.py lines 453-458), processing the requests in sequence order. -/
def resourcesLeaveRequests (numShifts numRoles : Nat) (resourceIdLookup : String → Nat)
    (arg : List (String × Nat × Rat)) : Nat → Nat → Nat → Nat → Rat :=
  arg.foldl (softLeaveRequestWrite numShifts numRoles resourceIdLookup) zeroPenaltyGrid

/-- The minimization objective of `_softLeave` (src/logic.py lines 460-464):
the sum over all coordinates of penalty times variable. -/
def softLeaveObjective (numResources numRoles numDays numShifts : Nat)
    (grid : Nat → Nat → Nat → Nat → Rat) (v : VarValuation) : Rat :=
  (Finset.range numResources).sum fun n =>
    (Finset.range numRoles).sum fun r =>
      (Finset.range numDays).sum fun d =>
        (Finset.range numShifts).sum fun s => grid n r d s * (b2n (v n r d s) : Rat)

/-- The weight of the last request in the sequence targeting a given
(resource id, day), or 0 when none does — the claim's description of what
one grid cell holds. -/
def lastRequestWeight (resourceIdLookup : String → Nat) (arg : List (String × Nat × Rat))
    (n d : Nat) : Rat :=
  match arg.reverse.find? fun req => decide (resourceIdLookup req.1 = n ∧ req.2.1 = d) with
  | some req => req.2.2
  | none => 0

/-- The engine-defined solve statuses (`cp_model` status codes, abstracted). -/
inductive CpStatus where
  | optimal
  | feasible
  | infeasible
  | unknownStatus
deriving DecidableEq, Repr

/-- Embeds `_finalSolve` (src/logic.py lines 321-342): the external engine
invocation is abstracted as the oracle `engineResult`; after configuring the
time budget and worker count, the method returns the engine's status
unchanged (`status = self.solver.Solve(self.model); return status`). -/
def finalSolve (engineResult : CpStatus) : CpStatus := engineResult

/-- The session state that `solve` (src/logic.py lines 344-383) leaves on
`self`, together with the value the method itself returns to its caller.
The constraint-emitting steps mutate only the model handle and are modelled
by the `...Sat` predicates; the data driving them is recorded here. -/
structure SolveOutcome where
  numDays : Nat
  numShifts : Nat
  registry : Registry
  requirementMapping : List (List (List (Nat × Nat)))
  engineStatus : CpStatus
  returned : Option CpStatus
deriving DecidableEq, Repr

/-- Embeds `solve` (src/logic.py lines 344-383).  The method's last line
evaluates `self._finalSolve()` but `solve` has no return statement, so Python
returns `None`: `returned` is `none`, independent of the engine's status. -/
def Solver_solve (engineResult : CpStatus) (args0 : List (String × List String))
    (args1 : List (List (List (String × Nat)))) : SolveOutcome :=
  let numDays := args1.length
  let numShifts := (args1.headD []).length
  let registry := createEmployeeRoleLookup args0
  let requirementMapping :=
    createRequirementMapping (fun role => lookupD registry.rolesIdLookup role 0) args1
  { numDays := numDays
    numShifts := numShifts
    registry := registry
    requirementMapping := requirementMapping
    engineStatus := finalSolve engineResult
    returned := none }

@[simp] theorem b2n_true : b2n true = 1 := rfl

@[simp] theorem b2n_false : b2n false = 0 := rfl

theorem b2n_le_one (b : Bool) : b2n b ≤ 1 := by cases b <;> simp [b2n]

theorem b2n_eq_zero {b : Bool} : b2n b = 0 ↔ b = false := by cases b <;> simp [b2n]

theorem b2n_eq_ite (b : Bool) : (if b = true then 1 else 0) = b2n b := by
  cases b <;> simp [b2n]

theorem dedupAppend_go (l : List String) :
    ∀ acc : List String,
      l.foldl (fun a x => if x ∈ a then a else a ++ [x]) acc
        = acc ++ firstSeenList (l.filter fun x => decide (x ∉ acc)) := by
  induction l with
  | nil => intro acc; simp [firstSeenList]
  | cons x xs ih =>
    intro acc
    by_cases hx : x ∈ acc
    · simp only [List.foldl_cons, if_pos hx]
      rw [ih acc, List.filter_cons]
      simp [hx]
    · simp only [List.foldl_cons, if_neg hx]
      rw [ih (acc ++ [x]), List.filter_cons]
      have hxd : decide (x ∉ acc) = true := by simp [hx]
      rw [hxd]
      rw [if_pos rfl]
      rw [show firstSeenList (x :: xs.filter fun y => decide (y ∉ acc))
            = x :: firstSeenList ((xs.filter fun y => decide (y ∉ acc)).filter
                fun y => decide (y ≠ x)) from by rw [firstSeenList.eq_def]]
      have hpt : (xs.filter fun y => decide (y ∉ acc)).filter (fun y => decide (y ≠ x))
          = xs.filter fun y => decide (y ∉ acc ++ [x]) := by
        rw [List.filter_filter]
        refine List.filter_congr fun a _ => ?_
        rcases Decidable.em (a ∈ acc) with hmem | hmem <;>
          rcases Decidable.em (a = x) with heq | heq <;>
            simp [hmem, heq, List.mem_append]
      rw [hpt]
      simp

theorem dedupAppend_eq_firstSeen (l : List String) : dedupAppend l = firstSeenList l := by
  rw [dedupAppend, dedupAppend_go]
  have : (l.filter fun x => decide (x ∉ ([] : List String))) = l := by
    refine List.filter_eq_self.mpr fun a _ => ?_
    simp
  rw [this]
  simp

theorem collectRoles_eq_firstSeen (roleLists : List (List String)) :
    collectRoles roleLists = firstSeenList roleLists.flatten := by
  rw [collectRoles, ← List.foldl_flatten, ← dedupAppend, dedupAppend_eq_firstSeen]

/-- Claim C7: registry construction is deterministic and idempotent; resource
indices are assigned in first-seen key order, role indices in first-seen
order scanning resources in order then each role list in order (the flattened
role lists), and duplicates share the index of their first occurrence. -/
theorem createEmployeeRoleLookup_first_seen (arg : List (String × List String)) :
    createEmployeeRoleLookup arg = createEmployeeRoleLookup arg
    ∧ (createEmployeeRoleLookup arg).resourcesLookup
        = (firstSeenList (arg.map Prod.fst)).enum
    ∧ (createEmployeeRoleLookup arg).resourceIdLookup
        = (firstSeenList (arg.map Prod.fst)).enum.map (fun p => (p.2, p.1))
    ∧ (createEmployeeRoleLookup arg).rolesLookup
        = (firstSeenList ((arg.map Prod.snd).flatten)).enum
    ∧ (createEmployeeRoleLookup arg).rolesIdLookup
        = (firstSeenList ((arg.map Prod.snd).flatten)).enum.map (fun p => (p.2, p.1))
    ∧ (createEmployeeRoleLookup arg).numResources
        = (firstSeenList (arg.map Prod.fst)).length
    ∧ (createEmployeeRoleLookup arg).numRoles
        = (firstSeenList ((arg.map Prod.snd).flatten)).length := by
  refine ⟨rfl, ?_, ?_, ?_, ?_, ?_, ?_⟩ <;>
    simp [createEmployeeRoleLookup, dedupAppend_eq_firstSeen, collectRoles_eq_firstSeen]

theorem non_sequential_go (arg : List (Nat × Nat)) :
    ∀ (m : Nat → Nat → Nat) (i j : Nat),
      (arg.foldl
        (fun m dependence =>
          let i_idx := dependence.1
          let j_idx := dependence.1
          fun i j => if i = i_idx ∧ j = j_idx then 1 else m i j)
        m) i j
      = if ∃ p ∈ arg, i = p.1 ∧ j = p.1 then 1 else m i j := by
  induction arg with
  | nil => intro m i j; simp
  | cons p ps ih =>
    intro m i j
    simp only [List.foldl_cons]
    rw [ih]
    by_cases hps : ∃ q ∈ ps, i = q.1 ∧ j = q.1
    · obtain ⟨q, hq, hqe⟩ := hps
      rw [if_pos ⟨q, hq, hqe⟩, if_pos ⟨q, List.mem_cons_of_mem p hq, hqe⟩]
    · rw [if_neg hps]
      by_cases hp : i = p.1 ∧ j = p.1
      · have hex : ∃ q ∈ p :: ps, i = q.1 ∧ j = q.1 := ⟨p, List.mem_cons_self p ps, hp⟩
        rw [if_pos hp, if_pos hex]
      · have hex : ¬∃ q ∈ p :: ps, i = q.1 ∧ j = q.1 := by
          rintro ⟨q, hq, hqe⟩
          rcases List.mem_cons.mp hq with h | h
          · subst h; exact hp hqe
          · exact hps ⟨q, h, hqe⟩
        rw [if_neg hp, if_neg hex]

theorem non_sequential_eval (arg : List (Nat × Nat)) (i j : Nat) :
    non_sequential_shifts_indices arg i j
      = if ∃ p ∈ arg, i = p.1 ∧ j = p.1 then 1 else 0 := by
  rw [non_sequential_shifts_indices, non_sequential_go]

/-- Claim C10: `_dayAfterNight`'s matrix construction succeeds exactly when the
requirement matrix declares at least 3 shifts: for `numShifts ≥ 3` every index
written is in bounds, while for fewer than 3 shifts the write at index 2 is
out of bounds and model construction fails with an index error. -/
theorem dayAfterNight_needs_three_shifts (numShifts : Nat) :
    (dayAfterNightMatrix numShifts).isSome = true ↔ 3 ≤ numShifts := by
  constructor
  · intro h
    by_contra hlt
    have h2 : ¬(2 : Nat) < numShifts := by omega
    simp [dayAfterNightMatrix, nonSequentialBuildChecked, List.foldlM,
      nonSequentialWriteChecked, h2] at h
  · intro h
    have h2 : (2 : Nat) < numShifts := by omega
    simp [dayAfterNightMatrix, nonSequentialBuildChecked, List.foldlM,
      nonSequentialWriteChecked, h2]

theorem dayAfterNight_needs_three_shifts_witness :
    (dayAfterNightMatrix 3).isSome = true ∧ (dayAfterNightMatrix 2).isSome ≠ true :=
  ⟨(dayAfterNight_needs_three_shifts 3).mpr (by decide),
    fun h => by have := (dayAfterNight_needs_three_shifts 2).mp h; omega⟩

/-- Counterexample to claim C1: with the single declared forbidden pair
(2, 0), a valuation that puts the only resource on shift 2 on day 0 and on
shift 1 on day 1 — a transition pair (2, 1) that is NOT declared forbidden,
with the declared destination shift 0 unused and daily exclusivity respected —
is nevertheless rejected by the `_nextDayShift` constraints.  So shift pairs
not explicitly marked forbidden are not unrestricted. -/
theorem nextDayShift_unmarked_pair_restricted :
    maxOneShiftPerDaySat 1 1 2 3 vCexTransition = true
    ∧ vCexTransition 0 0 0 2 = true
    ∧ vCexTransition 0 0 1 1 = true
    ∧ vCexTransition 0 0 1 0 = false
    ∧ decide ((2, 1) ∈ ([(2, 0)] : List (Nat × Nat))) = false
    ∧ nextDayShiftSat 1 1 2 3 [(2, 0)] vCexTransition = false := by
  decide

/-- Claim C1 (amended): each declared pair (from, to) with `from < numShifts`
makes the constraints ban, for a resource on shift `from` on day d, EVERY
assignment on day d+1 (so in particular the declared successor `to`); and the
constraints restrict nothing else: any valuation satisfying daily exclusivity
that never places a resource on the origin shift of a declared pair (on days
0..numDays-2) satisfies all the `_nextDayShift` constraints. -/
theorem nextDayShift_flagged_bans_next_day
    (numResources numRoles numDays numShifts : Nat) (arg : List (Nat × Nat))
    (v : VarValuation) :
    (nextDayShiftSat numResources numRoles numDays numShifts arg v = true →
      ∀ p ∈ arg, p.1 < numShifts → ∀ n, n < numResources → ∀ d, d < numDays - 1 →
        ∀ r0, r0 < numRoles → v n r0 d p.1 = true →
          ∀ j, j < numShifts → ∀ r, r < numRoles → v n r (d + 1) j = false)
    ∧ (maxOneShiftPerDaySat numResources numRoles numDays numShifts v = true →
      (∀ p ∈ arg, ∀ n, n < numResources → ∀ d, d < numDays - 1 → ∀ r, r < numRoles →
        v n r d p.1 = false) →
      nextDayShiftSat numResources numRoles numDays numShifts arg v = true) := by
  constructor
  · intro hsat p hp hpS n hn d hd r0 hr0 hv j hj r hr
    simp only [nextDayShiftSat, List.all_eq_true, List.mem_range,
      decide_eq_true_eq] at hsat
    have hc := hsat n hn d hd p.1 hpS
    have hsplit : (Finset.range numShifts).sum
          (fun j => (Finset.range numRoles).sum fun r =>
            b2n (v n r d p.1) * non_sequential_shifts_indices arg p.1 j
              + b2n (v n r (d + 1) j))
        = ((Finset.range numShifts).sum fun j => (Finset.range numRoles).sum fun r =>
            b2n (v n r d p.1) * non_sequential_shifts_indices arg p.1 j)
          + (Finset.range numShifts).sum fun j => (Finset.range numRoles).sum fun r =>
            b2n (v n r (d + 1) j) := by
      rw [← Finset.sum_add_distrib]
      refine Finset.sum_congr rfl fun j _ => ?_
      rw [← Finset.sum_add_distrib]
    rw [hsplit] at hc
    have hMaa : non_sequential_shifts_indices arg p.1 p.1 = 1 := by
      rw [non_sequential_eval]
      exact if_pos ⟨p, hp, rfl, rfl⟩
    have h1 : 1 ≤ (Finset.range numRoles).sum fun r =>
        b2n (v n r d p.1) * non_sequential_shifts_indices arg p.1 p.1 := by
      have hterm : b2n (v n r0 d p.1) * non_sequential_shifts_indices arg p.1 p.1 = 1 := by
        rw [hv, hMaa]
        simp
      calc 1 = b2n (v n r0 d p.1) * non_sequential_shifts_indices arg p.1 p.1 :=
          hterm.symm
        _ ≤ _ := Finset.single_le_sum
            (f := fun r => b2n (v n r d p.1) * non_sequential_shifts_indices arg p.1 p.1)
            (fun i _ => Nat.zero_le _) (Finset.mem_range.mpr hr0)
    have hA : 1 ≤ (Finset.range numShifts).sum fun j =>
        (Finset.range numRoles).sum fun r =>
          b2n (v n r d p.1) * non_sequential_shifts_indices arg p.1 j :=
      le_trans h1 (Finset.single_le_sum
        (f := fun j => (Finset.range numRoles).sum fun r =>
          b2n (v n r d p.1) * non_sequential_shifts_indices arg p.1 j)
        (fun i _ => Nat.zero_le _) (Finset.mem_range.mpr hpS))
    have hB0 : (Finset.range numShifts).sum
        (fun j => (Finset.range numRoles).sum fun r => b2n (v n r (d + 1) j)) = 0 := by
      omega
    have hj0 := (Finset.sum_eq_zero_iff.mp hB0) j (Finset.mem_range.mpr hj)
    have hr0e := (Finset.sum_eq_zero_iff.mp hj0) r (Finset.mem_range.mpr hr)
    exact b2n_eq_zero.mp hr0e
  · intro hmax hflag
    simp only [nextDayShiftSat, List.all_eq_true, List.mem_range, decide_eq_true_eq]
    intro n hn d hd s hs
    have hfirst : ∀ j r, r < numRoles →
        b2n (v n r d s) * non_sequential_shifts_indices arg s j = 0 := by
      intro j r hr
      rw [non_sequential_eval]
      by_cases hex : ∃ p ∈ arg, s = p.1 ∧ j = p.1
      · rcases hex with ⟨p, hparg, hsp, _⟩
        have := hflag p hparg n hn d hd r hr
        rw [← hsp] at this
        rw [this]
        simp
      · rw [if_neg hex]
        simp
    have hsum : (Finset.range numShifts).sum
          (fun j => (Finset.range numRoles).sum fun r =>
            b2n (v n r d s) * non_sequential_shifts_indices arg s j
              + b2n (v n r (d + 1) j))
        = (Finset.range numShifts).sum fun j =>
            (Finset.range numRoles).sum fun r => b2n (v n r (d + 1) j) := by
      refine Finset.sum_congr rfl fun j _ => Finset.sum_congr rfl fun r hr => ?_
      rw [hfirst j r (Finset.mem_range.mp hr)]
      rw [Nat.zero_add]
    rw [hsum]
    simp only [maxOneShiftPerDaySat, List.all_eq_true, List.mem_range,
      decide_eq_true_eq] at hmax
    have hd1 : d + 1 < numDays := by omega
    calc (Finset.range numShifts).sum
          (fun j => (Finset.range numRoles).sum fun r => b2n (v n r (d + 1) j))
        = (Finset.range numRoles).sum
          (fun r => (Finset.range numShifts).sum fun j => b2n (v n r (d + 1) j)) :=
          Finset.sum_comm
      _ ≤ 1 := hmax n hn (d + 1) hd1

theorem nextDayShift_flagged_bans_next_day_witness :
    nextDayShiftSat 1 1 2 3 [(2, 0)] vTransNight = true
    ∧ vTransNight 0 0 1 1 = false :=
  ⟨by decide,
    (nextDayShift_flagged_bans_next_day 1 1 2 3 [(2, 0)] vTransNight).1 (by decide)
      (2, 0) (by decide) (by decide) 0 (by decide) 0 (by decide) 0 (by decide)
      (by decide) 1 (by decide) 0 (by decide)⟩

theorem removeExtraRolesSat_iff (numResources numRoles numDays numShifts : Nat)
    (resourceRoleMapping : Nat → List Nat) (v : VarValuation) :
    removeExtraRolesSat numResources numRoles numDays numShifts resourceRoleMapping v = true ↔
      ∀ n, n < numResources → ∀ role, role < numRoles → role ∉ resourceRoleMapping n →
        ∀ d, d < numDays → ∀ s, s < numShifts → v n role d s = false := by
  simp only [removeExtraRolesSat, List.all_eq_true, List.mem_filter, List.mem_range,
    decide_eq_true_eq, beq_iff_eq]
  constructor
  · intro h n hn role hrole hmem d hd s hs
    exact h n hn role ⟨hrole, hmem⟩ d hd s hs
  · intro h n hn role hrole d hd s hs
    exact h n hn role hrole.1 hrole.2 d hd s hs

/-- Claim C5: if the `_removeExtraRoles` constraints are satisfied, then every
ineligible (resource, role) variable is false for all days and shifts. -/
theorem removeExtraRoles_bans_ineligible (numResources numRoles numDays numShifts : Nat)
    (resourceRoleMapping : Nat → List Nat) (v : VarValuation)
    (hsat : removeExtraRolesSat numResources numRoles numDays numShifts
      resourceRoleMapping v = true) :
    ∀ n, n < numResources → ∀ role, role < numRoles → role ∉ resourceRoleMapping n →
      ∀ d, d < numDays → ∀ s, s < numShifts → v n role d s = false :=
  (removeExtraRolesSat_iff numResources numRoles numDays numShifts
    resourceRoleMapping v).mp hsat

theorem removeExtraRoles_bans_ineligible_witness :
    removeExtraRolesSat 1 2 1 1 (fun _ => [0])
      (fun n r _ _ => decide (n = 0 ∧ r = 0)) = true
    ∧ (fun n r _ _ => decide (n = 0 ∧ r = 0) : VarValuation) 0 1 0 0 = false :=
  ⟨by decide,
    removeExtraRoles_bans_ineligible 1 2 1 1 (fun _ => [0])
      (fun n r _ _ => decide (n = 0 ∧ r = 0)) (by decide)
      0 (by decide) 1 (by decide) (by decide) 0 (by decide) 0 (by decide)⟩

theorem getD_map_eq {α β : Type} (g : α → β) (l : List α) (i : Nat) (dα : α) :
    (l.map g).getD i (g dα) = g (l.getD i dα) := by
  induction l generalizing i with
  | nil => simp
  | cons a as ih =>
    cases i with
    | zero => simp
    | succ n => simp only [List.map_cons, List.getD_cons_succ]; exact ih n

theorem createRequirementMapping_cell (f : String → Nat)
    (arg : List (List (List (String × Nat)))) (d s : Nat) :
    ((createRequirementMapping f arg).getD d []).getD s []
      = ((arg.getD d []).getD s []).map fun p => (f p.1, p.2) := by
  rw [createRequirementMapping]
  have h1 : (arg.map fun day => day.map fun shift => shift.map fun p => (f p.1, p.2)).getD d []
      = (arg.getD d []).map fun shift => shift.map fun p => (f p.1, p.2) := by
    simpa using getD_map_eq
      (fun day => day.map fun shift => shift.map fun p => (f p.1, p.2)) arg d []
  rw [h1]
  simpa using getD_map_eq
    (fun shift : List (String × Nat) => shift.map fun p => (f p.1, p.2)) (arg.getD d []) s []

/-- Claim C3: if the `_setRequirementConstraint` constraints built from the
reindexed requirement matrix are satisfied, then for every day, shift, and
role listed in the input matrix at that day/shift, at least the required
number of resources carry that role there; and roles absent from a day/shift
dict are unconstrained: changing the valuation at unlisted coordinates
preserves satisfaction (no implicit zero is forced). -/
theorem requirement_constraints_characterization
    (numResources numDays numShifts : Nat) (rolesIdLookup : String → Nat)
    (inputMatrix : List (List (List (String × Nat)))) (v v2 : VarValuation)
    (hsat : setRequirementConstraintSat numResources numDays numShifts
      (createRequirementMapping rolesIdLookup inputMatrix) v = true) :
    (∀ d, d < numDays → ∀ s, s < numShifts →
      ∀ p ∈ (inputMatrix.getD d []).getD s [],
        p.2 ≤ ((Finset.range numResources).filter
          fun n => v n (rolesIdLookup p.1) d s = true).card)
    ∧ ((∀ n r d s, d < numDays → s < numShifts →
          (∃ q ∈ ((createRequirementMapping rolesIdLookup inputMatrix).getD d []).getD s [],
            q.1 = r) →
          v2 n r d s = v n r d s) →
        setRequirementConstraintSat numResources numDays numShifts
          (createRequirementMapping rolesIdLookup inputMatrix) v2 = true) := by
  simp only [setRequirementConstraintSat, List.all_eq_true, List.mem_range,
    decide_eq_true_eq] at hsat
  constructor
  · intro d hd s hs p hp
    have hmem : (rolesIdLookup p.1, p.2)
        ∈ ((createRequirementMapping rolesIdLookup inputMatrix).getD d []).getD s [] := by
      rw [createRequirementMapping_cell]
      exact List.mem_map.mpr ⟨p, hp, rfl⟩
    have h := hsat d hd s hs _ hmem
    have hcard : ((Finset.range numResources).filter
          fun n => v n (rolesIdLookup p.1) d s = true).card
        = (Finset.range numResources).sum fun n => b2n (v n (rolesIdLookup p.1) d s) := by
      rw [Finset.card_filter]
      exact Finset.sum_congr rfl fun n _ => b2n_eq_ite _
    rw [hcard]
    simpa using h
  · intro hagree
    simp only [setRequirementConstraintSat, List.all_eq_true, List.mem_range,
      decide_eq_true_eq]
    intro d hd s hs q hq
    have hsum : ((Finset.range numResources).sum fun n => b2n (v2 n q.1 d s))
        = (Finset.range numResources).sum fun n => b2n (v n q.1 d s) := by
      refine Finset.sum_congr rfl fun n _ => ?_
      rw [hagree n q.1 d s hd hs ⟨q, hq, rfl⟩]
    rw [hsum]
    exact hsat d hd s hs q hq

theorem requirement_constraints_characterization_witness :
    setRequirementConstraintSat 1 1 1
      (createRequirementMapping (fun _ => 0) [[[("Role1", 1)]]]) (fun _ _ _ _ => true) = true
    ∧ 1 ≤ ((Finset.range 1).filter
        fun n => (fun _ _ _ _ => true : VarValuation) n 0 0 0 = true).card :=
  ⟨by decide, by
    have h := (requirement_constraints_characterization 1 1 1 (fun _ => 0)
      [[[("Role1", 1)]]] (fun _ _ _ _ => true) (fun _ _ _ _ => true) (by decide)).1
      0 (by decide) 0 (by decide) ("Role1", 1) (by decide)
    exact h⟩

/-- Claim C4: if the `_maxOneShiftPerDay` constraints are satisfied, then for
every resource and day the number of (role, shift) pairs whose variable is
true is at most 1. -/
theorem maxOneShiftPerDay_at_most_one (numResources numRoles numDays numShifts : Nat)
    (v : VarValuation)
    (hsat : maxOneShiftPerDaySat numResources numRoles numDays numShifts v = true) :
    ∀ n, n < numResources → ∀ d, d < numDays →
      ((Finset.range numRoles ×ˢ Finset.range numShifts).filter
        fun p => v n p.1 d p.2 = true).card ≤ 1 := by
  intro n hn d hd
  simp only [maxOneShiftPerDaySat, List.all_eq_true, List.mem_range,
    decide_eq_true_eq] at hsat
  have h := hsat n hn d hd
  rw [Finset.card_filter]
  rw [Finset.sum_product (Finset.range numRoles) (Finset.range numShifts)
    (fun p => if v n p.1 d p.2 = true then 1 else 0)]
  calc (Finset.range numRoles).sum
        (fun r => (Finset.range numShifts).sum fun s => if v n r d s = true then 1 else 0)
      = (Finset.range numRoles).sum
        (fun r => (Finset.range numShifts).sum fun s => b2n (v n r d s)) := by
        refine Finset.sum_congr rfl fun r _ => Finset.sum_congr rfl fun s _ => ?_
        exact b2n_eq_ite (v n r d s)
    _ ≤ 1 := h

theorem maxOneShiftPerDay_at_most_one_witness :
    maxOneShiftPerDaySat 1 1 1 2 (fun _ _ _ s => decide (s = 0)) = true
    ∧ ((Finset.range 1 ×ˢ Finset.range 2).filter
        fun p => (fun _ _ _ s => decide (s = 0) : VarValuation) 0 p.1 0 p.2 = true).card ≤ 1 :=
  ⟨by decide,
    maxOneShiftPerDay_at_most_one 1 1 1 2 (fun _ _ _ s => decide (s = 0)) (by decide)
      0 (by decide) 0 (by decide)⟩

/-- Claim C6: if the `_hardLeave` constraints are satisfied, then for every
(resourceName, day) pair in the hard-leave list, the named resource has every
role/shift variable false on that day. -/
theorem hardLeave_bans_whole_day (numRoles numShifts : Nat)
    (resourceIdLookup : String → Nat) (v : VarValuation) (arg : List (String × Nat))
    (hsat : hardLeaveSat numRoles numShifts resourceIdLookup v arg = true) :
    ∀ leave ∈ arg, ∀ role, role < numRoles → ∀ shift, shift < numShifts →
      v (resourceIdLookup leave.1) role leave.2 shift = false := by
  intro leave hleave role hrole shift hshift
  simp only [hardLeaveSat, banShiftSat, List.all_eq_true, List.mem_range,
    beq_iff_eq] at hsat
  exact hsat leave hleave shift hshift role hrole

theorem hardLeave_bans_whole_day_witness :
    hardLeaveSat 1 1 (fun _ => 0) (fun _ _ d _ => decide (d = 1)) [("A", 0)] = true
    ∧ (fun _ _ d _ => decide (d = 1) : VarValuation) ((fun _ => 0) "A") 0 0 0 = false :=
  ⟨by decide,
    hardLeave_bans_whole_day 1 1 (fun _ => 0) (fun _ _ d _ => decide (d = 1)) [("A", 0)]
      (by decide) ("A", 0) (by decide) 0 (by decide) 0 (by decide)⟩

theorem roleScan_foldl_none (rolesLookup : Nat → String)
    (v : VarValuation) (id d s : Nat) :
    ∀ (rl : List Nat) (acc : Option (String × Nat)),
      (rl.foldl
          (fun acc2 r => if v id r d s then some (rolesLookup r, s) else acc2)
          acc) = none
        ↔ acc = none ∧ ∀ r ∈ rl, v id r d s = false := by
  intro rl
  induction rl with
  | nil => intro acc; simp
  | cons a as ih =>
    intro acc
    simp only [List.foldl_cons]
    rw [ih]
    cases hv : v id a d s with
    | false =>
      rw [if_neg (by simp [hv])]
      constructor
      · rintro ⟨h1, h2⟩
        refine ⟨h1, fun r hr => ?_⟩
        rcases List.mem_cons.mp hr with h | h
        · subst h; exact hv
        · exact h2 r h
      · rintro ⟨h1, h2⟩
        exact ⟨h1, fun r hr => h2 r (List.mem_cons_of_mem a hr)⟩
    | true =>
      rw [if_pos rfl]
      constructor
      · rintro ⟨h1, _⟩
        exact absurd h1 (by simp)
      · rintro ⟨_, h2⟩
        have := h2 a (List.mem_cons_self a as)
        rw [hv] at this
        exact absurd this (by simp)

theorem rosterDayEntry_none_iff (numRoles numShifts : Nat) (rolesLookup : Nat → String)
    (v : VarValuation) (id d : Nat) :
    rosterDayEntry numRoles numShifts rolesLookup v id d = none
      ↔ ∀ s, s < numShifts → ∀ r, r < numRoles → v id r d s = false := by
  rw [rosterDayEntry]
  have houter : ∀ (sl : List Nat) (acc : Option (String × Nat)),
      (sl.foldl
          (fun acc s =>
            (List.range numRoles).foldl
              (fun acc2 r => if v id r d s then some (rolesLookup r, s) else acc2)
              acc)
          acc) = none
        ↔ acc = none ∧ ∀ s ∈ sl, ∀ r ∈ List.range numRoles, v id r d s = false := by
    intro sl
    induction sl with
    | nil => intro acc; simp
    | cons a as ih =>
      intro acc
      simp only [List.foldl_cons]
      rw [ih, roleScan_foldl_none]
      constructor
      · rintro ⟨⟨h1, h2⟩, h3⟩
        refine ⟨h1, fun s hs r hr => ?_⟩
        rcases List.mem_cons.mp hs with h | h
        · subst h; exact h2 r hr
        · exact h3 s h r hr
      · rintro ⟨h1, h2⟩
        exact ⟨⟨h1, fun r hr => h2 a (List.mem_cons_self a as) r hr⟩,
          fun s hs r hr => h2 s (List.mem_cons_of_mem a hs) r hr⟩
  rw [houter]
  simp [List.mem_range]

theorem rosterDays_mem (numRoles numShifts : Nat) (rolesLookup : Nat → String)
    (v : VarValuation) (id : Nat) :
    ∀ (dl : List Nat) (acc : List (Nat × (String × Nat))) (d : Nat),
      d ∈ (dl.foldl
          (fun acc d2 =>
            match rosterDayEntry numRoles numShifts rolesLookup v id d2 with
            | some entry => acc ++ [(d2, entry)]
            | none => acc)
          acc).map Prod.fst
        ↔ d ∈ acc.map Prod.fst
          ∨ (d ∈ dl ∧ rosterDayEntry numRoles numShifts rolesLookup v id d ≠ none) := by
  intro dl
  induction dl with
  | nil => intro acc d; simp
  | cons a as ih =>
    intro acc d
    simp only [List.foldl_cons]
    rw [ih]
    cases hentry : rosterDayEntry numRoles numShifts rolesLookup v id a with
    | none =>
      simp only [hentry]
      constructor
      · rintro (h | ⟨h1, h2⟩)
        · exact Or.inl h
        · exact Or.inr ⟨List.mem_cons_of_mem a h1, h2⟩
      · rintro (h | ⟨h1, h2⟩)
        · exact Or.inl h
        · rcases List.mem_cons.mp h1 with h3 | h3
          · subst h3; exact absurd hentry h2
          · exact Or.inr ⟨h3, h2⟩
    | some e =>
      simp only [hentry, List.map_append, List.mem_append, List.map_cons, List.map_nil,
        List.mem_singleton]
      constructor
      · rintro ((h | h) | ⟨h1, h2⟩)
        · exact Or.inl h
        · exact Or.inr ⟨by rw [h]; exact List.mem_cons_self a as, by rw [h, hentry]; simp⟩
        · exact Or.inr ⟨List.mem_cons_of_mem a h1, h2⟩
      · rintro (h | ⟨h1, h2⟩)
        · exact Or.inl (Or.inl h)
        · rcases List.mem_cons.mp h1 with h3 | h3
          · exact Or.inl (Or.inr h3)
          · exact Or.inr ⟨h3, h2⟩

theorem rosterShifts_eq (numResources numRoles : Nat)
    (requirementMapping : List (List (List (Nat × Nat))))
    (resourcesLookup rolesLookup : Nat → String) (v : VarValuation) (day : Nat) :
    ∀ (sl : List Nat) (acc : List (Nat × ShiftEntry)),
      (sl.foldl
          (fun acc s =>
            if 1 + (shiftRolesList numResources numRoles requirementMapping
                resourcesLookup rolesLookup v day s).length ≥ 1 then
              acc ++ [(s, ⟨s, shiftRolesList numResources numRoles requirementMapping
                resourcesLookup rolesLookup v day s⟩)]
            else acc)
          acc)
        = acc ++ sl.map fun s => (s, ⟨s, shiftRolesList numResources numRoles
            requirementMapping resourcesLookup rolesLookup v day s⟩) := by
  intro sl
  induction sl with
  | nil => intro acc; simp
  | cons a as ih =>
    intro acc
    simp only [List.foldl_cons]
    rw [if_pos (Nat.le_add_right 1 _), ih]
    simp

theorem mem_shiftRolesList_resources_ne_nil (numResources numRoles : Nat)
    (requirementMapping : List (List (List (Nat × Nat))))
    (resourcesLookup rolesLookup : Nat → String) (v : VarValuation) (day s : Nat) :
    ∀ x ∈ shiftRolesList numResources numRoles requirementMapping resourcesLookup
        rolesLookup v day s,
      x.2.resources ≠ [] := by
  rw [shiftRolesList]
  have haux : ∀ (rl : List Nat) (acc : List (String × RoleEntry)),
      (∀ y ∈ acc, y.2.resources ≠ ([] : List String)) →
      ∀ x ∈ rl.foldl
          (fun roleAcc r =>
            if (assignedResources numResources resourcesLookup v r day s).length ≠ 0 then
              roleAcc ++ [(rolesLookup r,
                { requirement := (((requirementMapping.getD day []).getD s []).find?
                    fun p => decide (p.1 = r)).map Prod.snd
                  resources := assignedResources numResources resourcesLookup v r day s })]
            else roleAcc)
          acc,
        x.2.resources ≠ [] := by
    intro rl
    induction rl with
    | nil => intro acc hacc x hx; exact hacc x hx
    | cons a as ih =>
      intro acc hacc x hx
      simp only [List.foldl_cons] at hx
      refine ih _ ?_ x hx
      intro y hy
      by_cases hc : (assignedResources numResources resourcesLookup v a day s).length ≠ 0
      · rw [if_pos hc] at hy
        rcases List.mem_append.mp hy with h | h
        · exact hacc y h
        · rw [List.mem_singleton] at h
          subst h
          show assignedResources numResources resourcesLookup v a day s ≠ []
          intro hnil
          exact hc (by rw [hnil]; rfl)
      · rw [if_neg hc] at hy
        exact hacc y hy
  refine haux (List.range numRoles) [] ?_
  intro y hy
  exact absurd hy (List.not_mem_nil y)

/-- Counterexample to claim C9: with one shift, one role, one resource and an
all-false valuation, `getRosterByDay` still emits a shift entry — the
emptiness guard `len(shift) >= 1` counts the pre-inserted Shift key, so an
entry with no assigned resources is present in the per-day roster rather
than being absent. -/
theorem rosterByDay_emits_empty_shift_entry :
    getRosterByDay 1 1 1 [] (fun _ => "A") (fun _ => "Role1")
        (fun _ _ _ _ => false) 0
      = ⟨0, [(0, ⟨0, []⟩)]⟩
    ∧ (0, (⟨0, []⟩ : ShiftEntry)) ∈ (getRosterByDay 1 1 1 [] (fun _ => "A")
        (fun _ => "Role1") (fun _ _ _ _ => false) 0).shifts := by
  constructor
  · decide
  · decide

/-- Claim C9 (amended): in the per-resource roster a day key is present
exactly when the resource has some true assignment that day (empty days are
omitted); in the per-day roster every role entry that appears has a nonempty
assigned-resource list (empty role entries are omitted); but a shift entry is
emitted for EVERY shift index, with or without assignments, because the
emptiness guard `len(shift) >= 1` counts the pre-inserted Shift key and never
skips. -/
theorem roster_projection_omission (numResources numRoles numDays numShifts : Nat)
    (requirementMapping : List (List (List (Nat × Nat))))
    (resourceIdLookup : String → Nat) (resourcesLookup rolesLookup : Nat → String)
    (v : VarValuation) (resourceName : String) (day : Nat) :
    (∀ d, d ∈ (getRosterByResource numRoles numDays numShifts resourceIdLookup
        rolesLookup v resourceName).days.map Prod.fst ↔
      (d < numDays ∧ ∃ s, s < numShifts ∧ ∃ r, r < numRoles ∧
        v (resourceIdLookup resourceName) r d s = true))
    ∧ (∀ se ∈ (getRosterByDay numResources numRoles numShifts requirementMapping
        resourcesLookup rolesLookup v day).shifts, ∀ re ∈ se.2.roles,
        re.2.resources ≠ [])
    ∧ (getRosterByDay numResources numRoles numShifts requirementMapping
        resourcesLookup rolesLookup v day).shifts.map Prod.fst = List.range numShifts := by
  refine ⟨?_, ?_, ?_⟩
  · intro d
    rw [getRosterByResource]
    rw [rosterDays_mem numRoles numShifts rolesLookup v (resourceIdLookup resourceName)
      (List.range numDays) [] d]
    simp only [List.map_nil, List.not_mem_nil, false_or, List.mem_range]
    constructor
    · rintro ⟨h1, h2⟩
      refine ⟨h1, ?_⟩
      rw [Ne, rosterDayEntry_none_iff] at h2
      push_neg at h2
      obtain ⟨s, hs, r, hr, hv⟩ := h2
      exact ⟨s, hs, r, hr, by simpa using hv⟩
    · rintro ⟨h1, s, hs, r, hr, hv⟩
      refine ⟨h1, ?_⟩
      rw [Ne, rosterDayEntry_none_iff]
      push_neg
      exact ⟨s, hs, r, hr, by simp [hv]⟩
  · intro se hse re hre
    rw [getRosterByDay] at hse
    simp only at hse
    rw [rosterShifts_eq numResources numRoles requirementMapping resourcesLookup
      rolesLookup v day (List.range numShifts) []] at hse
    simp only [List.nil_append, List.mem_map] at hse
    obtain ⟨s, _, rfl⟩ := hse
    exact mem_shiftRolesList_resources_ne_nil numResources numRoles requirementMapping
      resourcesLookup rolesLookup v day s re hre
  · rw [getRosterByDay]
    simp only
    rw [rosterShifts_eq numResources numRoles requirementMapping resourcesLookup
      rolesLookup v day (List.range numShifts) []]
    simp only [List.nil_append, List.map_map]
    exact List.map_id (List.range numShifts)

theorem roster_projection_omission_witness :
    0 ∈ (getRosterByResource 1 1 1 (fun _ => 0) (fun _ => "Role1") vOneAssign
        "A").days.map Prod.fst
    ∧ ("Role1", ({ requirement := none, resources := ["A"] } : RoleEntry)).2.resources ≠ []
    ∧ (getRosterByDay 1 1 1 [] (fun _ => "A") (fun _ => "Role1")
        vOneAssign 0).shifts.map Prod.fst = List.range 1 :=
  ⟨((roster_projection_omission 1 1 1 1 [] (fun _ => 0) (fun _ => "A") (fun _ => "Role1")
      vOneAssign "A" 0).1 0).mpr ⟨by decide, 0, by decide, 0, by decide, by decide⟩,
    (roster_projection_omission 1 1 1 1 [] (fun _ => 0) (fun _ => "A") (fun _ => "Role1")
      vOneAssign "A" 0).2.1
      (0, ⟨0, [("Role1", { requirement := none, resources := ["A"] })]⟩) (by decide)
      ("Role1", { requirement := none, resources := ["A"] }) (by decide),
    (roster_projection_omission 1 1 1 1 [] (fun _ => 0) (fun _ => "A") (fun _ => "Role1")
      vOneAssign "A" 0).2.2⟩

theorem setPenaltyCell_roles_eval (tn td ts : Nat) (w : Rat) (rs : List Nat)
    (g : Nat → Nat → Nat → Nat → Rat) (n r d s : Nat) :
    (rs.foldl (fun g2 r2 => setPenaltyCell g2 tn r2 td ts w) g) n r d s
      = if n = tn ∧ r ∈ rs ∧ d = td ∧ s = ts then w else g n r d s := by
  induction rs generalizing g with
  | nil => simp
  | cons a as ih =>
    simp only [List.foldl_cons]
    rw [ih]
    by_cases h1 : n = tn ∧ r ∈ as ∧ d = td ∧ s = ts
    · rw [if_pos h1, if_pos ⟨h1.1, List.mem_cons_of_mem a h1.2.1, h1.2.2⟩]
    · rw [if_neg h1]
      simp only [setPenaltyCell]
      by_cases h2 : n = tn ∧ r = a ∧ d = td ∧ s = ts
      · rw [if_pos h2, if_pos ⟨h2.1, List.mem_cons.mpr (Or.inl h2.2.1), h2.2.2⟩]
      · rw [if_neg h2, if_neg ?hno]
        case hno =>
          rintro ⟨hc1, hc2, hc3, hc4⟩
          rcases List.mem_cons.mp hc2 with h | h
          · exact h2 ⟨hc1, h, hc3, hc4⟩
          · exact h1 ⟨hc1, h, hc3, hc4⟩

theorem softLeave_write_shifts_eval (tn td : Nat) (w : Rat) (numRoles : Nat)
    (ss : List Nat) (g : Nat → Nat → Nat → Nat → Rat) (n r d s : Nat) :
    (ss.foldl
        (fun g1 s2 =>
          (List.range numRoles).foldl
            (fun g2 r2 => setPenaltyCell g2 tn r2 td s2 w) g1)
        g) n r d s
      = if n = tn ∧ r ∈ List.range numRoles ∧ d = td ∧ s ∈ ss then w
        else g n r d s := by
  induction ss generalizing g with
  | nil => simp
  | cons a as ih =>
    simp only [List.foldl_cons]
    rw [ih]
    by_cases h1 : n = tn ∧ r ∈ List.range numRoles ∧ d = td ∧ s ∈ as
    · rw [if_pos h1, if_pos ⟨h1.1, h1.2.1, h1.2.2.1, List.mem_cons_of_mem a h1.2.2.2⟩]
    · rw [if_neg h1, setPenaltyCell_roles_eval]
      by_cases h2 : n = tn ∧ r ∈ List.range numRoles ∧ d = td ∧ s = a
      · rw [if_pos h2,
          if_pos ⟨h2.1, h2.2.1, h2.2.2.1, List.mem_cons.mpr (Or.inl h2.2.2.2)⟩]
      · rw [if_neg h2, if_neg ?hno]
        case hno =>
          rintro ⟨hc1, hc2, hc3, hc4⟩
          rcases List.mem_cons.mp hc4 with h | h
          · exact h2 ⟨hc1, hc2, hc3, h⟩
          · exact h1 ⟨hc1, hc2, hc3, h⟩

theorem softLeaveRequestWrite_eval (numShifts numRoles : Nat)
    (resourceIdLookup : String → Nat) (g : Nat → Nat → Nat → Nat → Rat)
    (request : String × Nat × Rat) (n r d s : Nat) :
    softLeaveRequestWrite numShifts numRoles resourceIdLookup g request n r d s
      = if n = resourceIdLookup request.1 ∧ r < numRoles ∧ d = request.2.1 ∧ s < numShifts
        then request.2.2 else g n r d s := by
  rw [softLeaveRequestWrite, softLeave_write_shifts_eval]
  simp [List.mem_range]

theorem softLeave_fold_eval (numShifts numRoles : Nat) (resourceIdLookup : String → Nat)
    (arg : List (String × Nat × Rat)) :
    ∀ (g : Nat → Nat → Nat → Nat → Rat) (n r d s : Nat),
      (arg.foldl (softLeaveRequestWrite numShifts numRoles resourceIdLookup) g) n r d s
        = if r < numRoles ∧ s < numShifts then
            (match arg.reverse.find?
                fun req => decide (resourceIdLookup req.1 = n ∧ req.2.1 = d) with
              | some req => req.2.2
              | none => g n r d s)
          else g n r d s := by
  induction arg with
  | nil => intro g n r d s; simp
  | cons req rest ih =>
    intro g n r d s
    simp only [List.foldl_cons]
    rw [ih]
    rw [show (req :: rest).reverse = rest.reverse ++ [req] from by simp]
    rw [List.find?_append]
    by_cases hin : r < numRoles ∧ s < numShifts
    · rw [if_pos hin, if_pos hin]
      cases hfind : rest.reverse.find?
          fun q => decide (resourceIdLookup q.1 = n ∧ q.2.1 = d) with
      | some q => simp
      | none =>
        simp only [Option.none_or]
        rw [softLeaveRequestWrite_eval]
        by_cases htgt : resourceIdLookup req.1 = n ∧ req.2.1 = d
        · have : (List.find? (fun q => decide (resourceIdLookup q.1 = n ∧ q.2.1 = d)) [req])
              = some req := by simp [List.find?, htgt]
          rw [this]
          rw [if_pos ⟨htgt.1.symm, hin.1, htgt.2.symm, hin.2⟩]
        · have : (List.find? (fun q => decide (resourceIdLookup q.1 = n ∧ q.2.1 = d)) [req])
              = none := by simp [List.find?, htgt]
          rw [this]
          rw [if_neg fun hc => htgt ⟨hc.1.symm, hc.2.2.1.symm⟩]
    · rw [if_neg hin, if_neg hin]
      rw [softLeaveRequestWrite_eval]
      rw [if_neg fun hc => hin ⟨hc.2.1, hc.2.2.2⟩]

/-- Claim C8: the penalty grid built by `_softLeave` holds, at every in-range
(role, shift) coordinate of a (resource, day), the weight of the LAST request
in the sequence targeting that (resource, day) — later requests overwrite
earlier ones — uniformly across all roles and shifts there, and 0 where no
request targets the (resource, day); out-of-range coordinates are never
written; and the minimization objective, the sum over all coordinates of
penalty times variable, consequently equals the sum over (resource, day) of
that last weight times the number of assignments there. -/
theorem softLeave_last_write_uniform (numResources numRoles numDays numShifts : Nat)
    (resourceIdLookup : String → Nat) (arg : List (String × Nat × Rat))
    (v : VarValuation) :
    (∀ n r d s, r < numRoles → s < numShifts →
      resourcesLeaveRequests numShifts numRoles resourceIdLookup arg n r d s
        = lastRequestWeight resourceIdLookup arg n d)
    ∧ (∀ n r d s, ¬(r < numRoles ∧ s < numShifts) →
      resourcesLeaveRequests numShifts numRoles resourceIdLookup arg n r d s = 0)
    ∧ softLeaveObjective numResources numRoles numDays numShifts
        (resourcesLeaveRequests numShifts numRoles resourceIdLookup arg) v
      = (Finset.range numResources).sum fun n =>
          (Finset.range numDays).sum fun d =>
            lastRequestWeight resourceIdLookup arg n d
              * (Finset.range numRoles).sum fun r =>
                  (Finset.range numShifts).sum fun s => (b2n (v n r d s) : Rat) := by
  have hcell : ∀ n r d s, r < numRoles → s < numShifts →
      resourcesLeaveRequests numShifts numRoles resourceIdLookup arg n r d s
        = lastRequestWeight resourceIdLookup arg n d := by
    intro n r d s hr hs
    rw [resourcesLeaveRequests, softLeave_fold_eval, if_pos ⟨hr, hs⟩, lastRequestWeight]
    cases arg.reverse.find? fun req => decide (resourceIdLookup req.1 = n ∧ req.2.1 = d) with
    | some q => rfl
    | none => rfl
  refine ⟨hcell, ?_, ?_⟩
  · intro n r d s hout
    rw [resourcesLeaveRequests, softLeave_fold_eval, if_neg hout]
    rfl
  · rw [softLeaveObjective]
    calc (Finset.range numResources).sum
          (fun n => (Finset.range numRoles).sum fun r =>
            (Finset.range numDays).sum fun d =>
              (Finset.range numShifts).sum fun s =>
                resourcesLeaveRequests numShifts numRoles resourceIdLookup arg n r d s
                  * (b2n (v n r d s) : Rat))
        = (Finset.range numResources).sum
          (fun n => (Finset.range numDays).sum fun d =>
            (Finset.range numRoles).sum fun r =>
              (Finset.range numShifts).sum fun s =>
                resourcesLeaveRequests numShifts numRoles resourceIdLookup arg n r d s
                  * (b2n (v n r d s) : Rat)) :=
          Finset.sum_congr rfl fun n _ => Finset.sum_comm
      _ = (Finset.range numResources).sum
          (fun n => (Finset.range numDays).sum fun d =>
            (Finset.range numRoles).sum fun r =>
              (Finset.range numShifts).sum fun s =>
                lastRequestWeight resourceIdLookup arg n d * (b2n (v n r d s) : Rat)) := by
          refine Finset.sum_congr rfl fun n _ => Finset.sum_congr rfl fun d _ =>
            Finset.sum_congr rfl fun r hr => Finset.sum_congr rfl fun s hs => ?_
          rw [hcell n r d s (Finset.mem_range.mp hr) (Finset.mem_range.mp hs)]
      _ = (Finset.range numResources).sum
          (fun n => (Finset.range numDays).sum fun d =>
            lastRequestWeight resourceIdLookup arg n d
              * (Finset.range numRoles).sum fun r =>
                  (Finset.range numShifts).sum fun s => (b2n (v n r d s) : Rat)) := by
          refine Finset.sum_congr rfl fun n _ => Finset.sum_congr rfl fun d _ => ?_
          simp [Finset.mul_sum]

theorem softLeave_last_write_uniform_witness :
    resourcesLeaveRequests 1 1 (fun _ => 0)
        [("A", 0, (1 : Rat)), ("A", 0, (2 : Rat))] 0 0 0 0
      = lastRequestWeight (fun _ => 0) [("A", 0, (1 : Rat)), ("A", 0, (2 : Rat))] 0 0
    ∧ lastRequestWeight (fun _ => 0) [("A", 0, (1 : Rat)), ("A", 0, (2 : Rat))] 0 0 = 2 :=
  ⟨(softLeave_last_write_uniform 1 1 1 1 (fun _ => 0)
      [("A", 0, (1 : Rat)), ("A", 0, (2 : Rat))] (fun _ _ _ _ => true)).1
      0 0 0 0 (by decide) (by decide),
    by decide⟩

/-- Claim C2 (code bug): `_finalSolve` itself returns the engine's status
verbatim, but `solve` evaluates `self._finalSolve()` without a return
statement, so `solve` always returns None to its caller — the engine status
(optimal, feasible, infeasible, or unknown) is never the value of `solve`. -/
theorem solve_returns_none (engineResult : CpStatus)
    (args0 : List (String × List String)) (args1 : List (List (List (String × Nat)))) :
    finalSolve engineResult = engineResult
    ∧ (Solver_solve engineResult args0 args1).returned = none
    ∧ (Solver_solve engineResult args0 args1).engineStatus = engineResult :=
  ⟨rfl, rfl, rfl⟩

end CSP
